import Mathlib

/-!
Shallow embedding of the karpenter node-lifecycle consistency core:

* the NodePool drift-hash controller (`Reconcile`, `updateNodeClaimHash`),
  from pkg/controllers/nodepool/hash/controller.go;
* the NodeClaim registration reconciler (`regReconcile`, `syncNode`),
  from the lifecycle part of the same source file;
* the shared allocatable cache, from pkg/utils/sharedcache/sharedcache.go,
  with go-cache Set/Get/Items/Delete semantics;
* the NodeClaim garbage collector, modelled from the spec (its source is
  absent here; only its test suite is available).

Go maps (annotations, labels) are embedded as association lists compared by
lookup (reflect.DeepEqual compares maps as key-value sets); machine state
that the controllers read but do not own (cloud lookups, patch outcomes) is
passed in as explicit oracle arguments.
-/

/-! ## Go string maps: lookup, lo.Assign, DeepEqual -/

abbrev AnnMap := List (String × String)

/-- Map lookup; the first binding for a key wins (merges prepend overrides). -/
def lookupAnn : AnnMap → String → Option String
  | [], _ => none
  | (k0, v0) :: rest, k => if k0 == k then some v0 else lookupAnn rest k

/-- lo.Assign m kvs: the result contains all bindings of m with every binding
of kvs overriding. -/
def assign (m kvs : AnnMap) : AnnMap := kvs ++ m

/-- equality.Semantic.DeepEqual on Go string maps: the two maps agree on every
key occurring in either. -/
def annEq (m1 m2 : AnnMap) : Bool :=
  (m1 ++ m2).all (fun kv => lookupAnn m1 kv.1 == lookupAnn m2 kv.1)

/-! ## Well-known keys and constants (sigs.k8s.io/karpenter/pkg/apis/v1) -/

def NodePoolHashAnnotationKey : String := "karpenter.sh/nodepool-hash"

def NodePoolHashVersionAnnotationKey : String := "karpenter.sh/nodepool-hash-version"

/-- The controller's current hash-version generation. -/
def NodePoolHashVersion : String := "v3"

def NodePoolLabelKey : String := "karpenter.sh/nodepool"

def InstanceTypeLabelKey : String := "node.kubernetes.io/instance-type"

def TerminationFinalizer : String := "karpenter.sh/termination"

def NodeRegisteredLabelKey : String := "karpenter.sh/registered"

def emptyStr : String := ""

def trueStr : String := "true"

def allocCacheTag : String := "allocatableCache;"

def semiStr : String := ";"

/-- fmt.Sprintf "allocatableCache;%s;" pool — the per-pool cache key pattern
the hash controller matches with strings.HasPrefix. -/
def cacheKeyHead (pool : String) : String := allocCacheTag ++ pool ++ semiStr

/-- fmt.Sprintf "allocatableCache;%s;%s" pool itype — the key syncNode writes. -/
def mkPoolKey (pool itype : String) : String := cacheKeyHead pool ++ itype

/-- strings.HasPrefix s pre (the prefix argument written first here). -/
def strStartsWith (pre s : String) : Bool := pre.data.isPrefixOf s.data

/-! ## The shared allocatable cache (go-cache semantics)

go-cache stores (value, expiration) pairs; a positive expiration in the past
makes the entry invisible to Get and Items without any eviction running. -/

structure CacheEntry where
  value : Nat
  expiration : Int
deriving DecidableEq

structure Cache where
  items : List (String × CacheEntry)
deriving DecidableEq

/-- go-cache: an item is expired iff its expiration is positive and strictly
before the current time. -/
def isExpired (now : Int) (e : CacheEntry) : Bool :=
  decide (0 < e.expiration) && decide (e.expiration < now)

def findItems : List (String × CacheEntry) → String → Option CacheEntry
  | [], _ => none
  | (k0, e) :: rest, k => if k0 == k then some e else findItems rest k

/-- go-cache Get: an expired entry is reported absent without being evicted. -/
def Cache.get (c : Cache) (now : Int) (k : String) : Option Nat :=
  match findItems c.items k with
  | none => none
  | some e => if isExpired now e then none else some e.value

/-- go-cache Set with an explicit TTL: expiration = now + ttl. -/
def Cache.set (c : Cache) (now : Int) (k : String) (v : Nat) (ttl : Int) : Cache :=
  ⟨(k, ⟨v, now + ttl⟩) :: c.items.filter (fun kv => kv.1 != k)⟩

/-- A live (non-expired) entry whose key matches the purged pool's key head:
exactly the entries the purge loop deletes. -/
def purgeGone (now : Int) (pre : String) (kv : String × CacheEntry) : Bool :=
  !isExpired now kv.2 && strStartsWith pre kv.1

def purgeKeep (now : Int) (pre : String) (kv : String × CacheEntry) : Bool :=
  !purgeGone now pre kv

/-- The hash controller's purge loop: iterate Items() (which skips expired
entries) and Delete every key with the pool's cache-key head as a prefix.
Returns the resulting cache and the list of deleted keys. -/
def purge (c : Cache) (now : Int) (pre : String) : Cache × List String :=
  (⟨c.items.filter (purgeKeep now pre)⟩,
   (c.items.filter (purgeGone now pre)).map (fun kv => kv.1))

/-! ## NodePool drift-hash controller -/

/-- A NodePool as the hash controller sees it: `hashVal` stands for the
deterministic digest np.Hash() of the drift-relevant fields. -/
structure NodePool where
  name : String
  hashVal : String
  annotations : AnnMap
deriving DecidableEq

/-- A NodeClaim as the hash controller sees it: `drifted` records whether the
Drifted status condition is present at all (StatusConditions().Get ≠ nil). -/
structure NodeClaim where
  name : String
  drifted : Bool
  annotations : AnnMap
deriving DecidableEq

/-- DeepEqual on the NodePool fields this controller can change. -/
def npBeq (a b : NodePool) : Bool :=
  a.name == b.name && a.hashVal == b.hashVal && annEq a.annotations b.annotations

/-- DeepEqual on the NodeClaim fields this controller can change. -/
def ncBeq (a b : NodeClaim) : Bool :=
  a.name == b.name && a.drifted == b.drifted && annEq a.annotations b.annotations

/-- Outcome of one kubeClient.Patch call, supplied by the environment. -/
inductive PatchResult
  | ok
  | notFound
  | err
deriving DecidableEq

def errClaimHash : String := "updating nodeclaim hash"

def errPatchPool : String := "patching nodepool"

/-- The per-NodeClaim step of updateNodeClaimHash: a stale hash-version gets
bumped unconditionally; the hash annotation is recomputed only when no
Drifted condition is present; the patch is diff-gated, and a failing patch
records a per-item error with not-found swallowed (client.IgnoreNotFound). -/
structure ClaimStep where
  claim : NodeClaim
  patchAttempted : Bool
  errRecorded : Bool
deriving DecidableEq

/-- The unconditional hash-version bump on a stale NodeClaim. -/
def bumpVersion (nc : NodeClaim) : NodeClaim :=
  {nc with
    annotations := assign nc.annotations [(NodePoolHashVersionAnnotationKey, NodePoolHashVersion)]}

/-- The full in-memory update of a stale NodeClaim: version bumped always,
hash recomputed only when no Drifted condition is present. -/
def bumpClaim (np : NodePool) (nc : NodeClaim) : NodeClaim :=
  if nc.drifted then bumpVersion nc
  else
    {bumpVersion nc with
      annotations := assign (bumpVersion nc).annotations [(NodePoolHashAnnotationKey, np.hashVal)]}

def updateOne (np : NodePool) (nc : NodeClaim) (patch : PatchResult) : ClaimStep :=
  if lookupAnn nc.annotations NodePoolHashVersionAnnotationKey == some NodePoolHashVersion then
    ⟨nc, false, false⟩
  else if ncBeq nc (bumpClaim np nc) then ⟨bumpClaim np nc, false, false⟩
  else
    match patch with
    | .ok => ⟨bumpClaim np nc, true, false⟩
    | .notFound => ⟨nc, true, false⟩
    | .err => ⟨nc, true, true⟩

/-- updateNodeClaimHash: every listed NodeClaim of the pool is processed
independently; failures never abort the loop. -/
def updateNodeClaimHash (np : NodePool) (claims : List NodeClaim)
    (claimPatch : NodeClaim → PatchResult) : List ClaimStep :=
  claims.map (fun nc => updateOne np nc (claimPatch nc))

/-- multierr.Combine over the per-item errors: an error exists iff some item
recorded one. -/
def combineErrs (steps : List ClaimStep) : Bool :=
  steps.any (fun s => s.errRecorded)

structure Outcome where
  np : NodePool
  claimSteps : List ClaimStep
  cache : Cache
  purged : List String
  poolPatchAttempted : Bool
  error : Option String
deriving DecidableEq

/-- Phase one of Controller.Reconcile: the NodeClaim fan-out runs only when
the pool's own hash-version annotation is stale. -/
def reconcileSteps (np : NodePool) (claims : List NodeClaim)
    (claimPatch : NodeClaim → PatchResult) : List ClaimStep :=
  if lookupAnn np.annotations NodePoolHashVersionAnnotationKey == some NodePoolHashVersion then []
  else updateNodeClaimHash np claims claimPatch

/-- The pool with its hash and hash-version annotations recomputed. -/
def rehashPool (np : NodePool) : NodePool :=
  {np with
    annotations := assign np.annotations
      [(NodePoolHashAnnotationKey, np.hashVal),
       (NodePoolHashVersionAnnotationKey, NodePoolHashVersion)]}

/-- Phase two of Controller.Reconcile: recompute the pool's hash annotations;
if anything changed, first purge the pool's allocatable-cache entries and then
patch the pool (a not-found patch failure is swallowed). -/
def reconcileAfter (np : NodePool) (steps : List ClaimStep) (c : Cache) (now : Int)
    (poolPatch : PatchResult) : Outcome :=
  if combineErrs steps then ⟨np, steps, c, [], false, some errClaimHash⟩
  else if npBeq np (rehashPool np) then ⟨np, steps, c, [], false, none⟩
  else
    match poolPatch with
    | .ok =>
      ⟨rehashPool np, steps, (purge c now (cacheKeyHead np.name)).1,
       (purge c now (cacheKeyHead np.name)).2, true, none⟩
    | .notFound =>
      ⟨np, steps, (purge c now (cacheKeyHead np.name)).1,
       (purge c now (cacheKeyHead np.name)).2, true, none⟩
    | .err =>
      ⟨np, steps, (purge c now (cacheKeyHead np.name)).1,
       (purge c now (cacheKeyHead np.name)).2, true, some errPatchPool⟩

/-- Controller.Reconcile for a NodePool, with the cluster's NodeClaim list and
the patch outcomes supplied by the environment. -/
def Reconcile (np : NodePool) (claims : List NodeClaim) (c : Cache) (now : Int)
    (claimPatch : NodeClaim → PatchResult) (poolPatch : PatchResult) : Outcome :=
  reconcileAfter np (reconcileSteps np claims claimPatch) c now poolPatch

/-! ## NodeClaim registration reconciler -/

/-- A status condition: present with a truth status and a reason, or absent.
StatusConditions().Get(...).IsTrue() is false on an absent condition. -/
def condIsTrue : Option (Bool × String) → Bool
  | some (true, _) => true
  | _ => false

structure RegClaim where
  name : String
  labels : AnnMap
  annotations : AnnMap
  taints : List (String × String)
  startupTaints : List (String × String)
  launched : Option (Bool × String)
  registered : Option (Bool × String)
  nodeName : Option String
  allocatable : Nat
deriving DecidableEq

structure Node where
  name : String
  finalizers : List String
  labels : AnnMap
  annotations : AnnMap
  taints : List (String × String)
  allocatable : Nat
  ownerRef : Option String
deriving DecidableEq

/-- DeepEqual on the Node fields syncNode can change (slices element-wise,
maps as key-value sets). -/
def nodeBeq (a b : Node) : Bool :=
  a.name == b.name && a.finalizers == b.finalizers && annEq a.labels b.labels &&
    annEq a.annotations b.annotations && a.taints == b.taints &&
    a.allocatable == b.allocatable && a.ownerRef == b.ownerRef

def reasonNotLaunched : String := "NotLaunched"

def reasonNodeNotFound : String := "NodeNotFound"

def reasonMultipleNodesFound : String := "MultipleNodesFound"

def reasonRegistered : String := "Registered"

def errGettingNode : String := "getting node for nodeclaim"

def errSyncNode : String := "syncing node labels"

/-- Modelled from the spec: the DefaultSharedCacheTTL constant referenced by
syncNode is defined outside src/; the spec fixes the default TTL at 24 hours
("value = resource quantities; TTL-bounded (default 24h)"). Nanoseconds, as
go time.Duration. -/
def DefaultSharedCacheTTL : Int := 24 * 60 * 60 * 1000000000

/-- controllerutil.AddFinalizer: append if absent. -/
def addFinalizer (n : Node) (f : String) : Node :=
  if f ∈ n.finalizers then n else {n with finalizers := n.finalizers ++ [f]}

/-- Modelled from the spec: scheduling.Taints.Merge (outside src/) unions by
key and effect, never overwriting existing taints. -/
def mergeTaints (a b : List (String × String)) : List (String × String) :=
  a ++ b.filter (fun t => !(a.any (fun u => u.1 == t.1 && u.2 == t.2)))

/-- The cache key syncNode computes from the claim's pool and instance-type
labels (Go map indexing yields "" for a missing label). -/
def mkCacheKey (nc : RegClaim) : String :=
  mkPoolKey ((lookupAnn nc.labels NodePoolLabelKey).getD emptyStr)
    ((lookupAnn nc.labels InstanceTypeLabelKey).getD emptyStr)

structure SyncOutcome where
  claim : RegClaim
  node : Node
  cache : Cache
  patchAttempted : Bool
  error : Option String
deriving DecidableEq

/-- The in-memory node after all of syncNode's mutations: finalizer,
ownership, label/annotation merges, taint merges, node-registered label. -/
def syncedNode (nc : RegClaim) (node : Node) : Node :=
  let n1 := addFinalizer node TerminationFinalizer
  let n2 : Node := {n1 with ownerRef := some nc.name}
  let n3 : Node :=
    {n2 with labels := assign n2.labels nc.labels,
             annotations := assign n2.annotations nc.annotations}
  let n4 : Node := {n3 with taints := mergeTaints (mergeTaints n3.taints nc.taints) nc.startupTaints}
  {n4 with labels := assign n4.labels (assign nc.labels [(NodeRegisteredLabelKey, trueStr)])}

/-- The cache after syncNode's write of the node's observed allocatable. -/
def syncCache (nc : RegClaim) (node : Node) (c : Cache) (now : Int) : Cache :=
  Cache.set c now (mkCacheKey nc) node.allocatable DefaultSharedCacheTTL

/-- Registration.syncNode: adds the termination finalizer, records the node's
observed allocatable in the shared cache with the default TTL, copies it onto
the claim, sets ownership, merges labels/annotations/taints and the
node-registered label, then patches the node only if it changed. -/
def syncNode (nc : RegClaim) (node : Node) (c : Cache) (now : Int)
    (patch : PatchResult) : SyncOutcome :=
  if nodeBeq node (syncedNode nc node) then
    ⟨{nc with allocatable := node.allocatable}, node, syncCache nc node c now, false, none⟩
  else
    match patch with
    | .ok =>
      ⟨{nc with allocatable := node.allocatable}, syncedNode nc node, syncCache nc node c now,
       true, none⟩
    | .notFound =>
      ⟨{nc with allocatable := node.allocatable}, node, syncCache nc node c now,
       true, some errSyncNode⟩
    | .err =>
      ⟨{nc with allocatable := node.allocatable}, node, syncCache nc node c now,
       true, some errSyncNode⟩

/-- Outcome of nodeclaimutil.NodeForNodeClaim, supplied by the environment. -/
inductive NodeLookup
  | found (n : Node)
  | notFoundErr
  | duplicateErr
  | otherErr
deriving DecidableEq

structure RegOutcome where
  claim : RegClaim
  node : Option Node
  cache : Cache
  nodePatchAttempted : Bool
  error : Option String
deriving DecidableEq

def setRegCond (nc : RegClaim) (st : Bool) (reason : String) : RegClaim :=
  {nc with registered := some (st, reason)}

/-- Registration.Reconcile: no-op when already Registered; Registered=False
with reason NotLaunched when not yet Launched; then resolve the node, turning
not-found and duplicate lookups into condition state (nil error), any other
lookup failure into a processing error; finally sync the node and, on
success, set Registered=True and record the node name. -/
def regReconcile (nc : RegClaim) (lookup : NodeLookup) (c : Cache) (now : Int)
    (patch : PatchResult) : RegOutcome :=
  if condIsTrue nc.registered then ⟨nc, none, c, false, none⟩
  else if !condIsTrue nc.launched then
    ⟨setRegCond nc false reasonNotLaunched, none, c, false, none⟩
  else
    match lookup with
    | .notFoundErr => ⟨setRegCond nc false reasonNodeNotFound, none, c, false, none⟩
    | .duplicateErr => ⟨setRegCond nc false reasonMultipleNodesFound, none, c, false, none⟩
    | .otherErr => ⟨nc, none, c, false, some errGettingNode⟩
    | .found node =>
      let s := syncNode nc node c now patch
      match s.error with
      | some e => ⟨s.claim, some s.node, s.cache, s.patchAttempted, some e⟩
      | none =>
        ⟨{setRegCond s.claim true reasonRegistered with nodeName := some node.name},
         some s.node, s.cache, s.patchAttempted, none⟩

/-! ## NodeClaim garbage collection (modelled from the spec) -/

/-- Modelled from the spec: the node-side view the garbage collector bases its
decision on (§4.3 decision table); the controller's source is not under src/,
only its test suite is. Ready=false and Ready=unknown behave alike. -/
inductive GCNodeView
  | neverResolved
  | ready
  | notReady
  | deletedOutOfBand
deriving DecidableEq

structure GCState where
  claimPresent : Bool
  finalizers : List String
  node : GCNodeView
  instanceGone : Bool
  elapsed : Nat
deriving DecidableEq

/-- Modelled from the spec: the garbage-collection decision table — delete
exactly when the node exists but is not Ready, the cloud instance is gone,
and at least the consistency window has elapsed since the reference time;
every other row keeps the claim. -/
def gcShouldDelete (s : GCState) (window : Nat) : Bool :=
  match s.node with
  | .notReady => s.instanceGone && decide (window ≤ s.elapsed)
  | _ => false

/-- Modelled from the spec: the deletion action removes the claim's
finalizers, then deletes the claim object. -/
def gcReconcile (s : GCState) (window : Nat) : GCState :=
  if gcShouldDelete s window then {s with claimPresent := false, finalizers := []} else s

/-! ## Supporting lemmas -/

lemma lookupAnn_cons (k0 v0 : String) (m : AnnMap) (k : String) :
    lookupAnn ((k0, v0) :: m) k = if k0 == k then some v0 else lookupAnn m k := rfl

lemma annEq_true_iff (m1 m2 : AnnMap) :
    annEq m1 m2 = true ↔ ∀ kv ∈ m1 ++ m2, lookupAnn m1 kv.1 = lookupAnn m2 kv.1 := by
  simp [annEq, List.all_eq_true]
  constructor
  · rintro ⟨h1, h2⟩ a b hab
    rcases hab with hm | hm
    · exact h1 a b hm
    · exact h2 a b hm
  · intro h
    exact ⟨fun a b hm => h a b (Or.inl hm), fun a b hm => h a b (Or.inr hm)⟩

lemma annEq_false_of_lookup_ne (m1 m2 : AnnMap) (k v : String)
    (hmem : (k, v) ∈ m1 ++ m2) (hne : lookupAnn m1 k ≠ lookupAnn m2 k) :
    annEq m1 m2 = false := by
  cases h : annEq m1 m2
  · rfl
  · exact absurd ((annEq_true_iff m1 m2).mp h (k, v) hmem) hne

lemma hashKey_beq_verKey :
    (NodePoolHashAnnotationKey == NodePoolHashVersionAnnotationKey) = false := by decide

lemma verKey_beq_hashKey :
    (NodePoolHashVersionAnnotationKey == NodePoolHashAnnotationKey) = false := by decide

lemma lookupAnn_bumpClaim_ver (np : NodePool) (nc : NodeClaim) :
    lookupAnn (bumpClaim np nc).annotations NodePoolHashVersionAnnotationKey =
      some NodePoolHashVersion := by
  cases hd : nc.drifted <;>
    simp [bumpClaim, bumpVersion, assign, hd, lookupAnn_cons, hashKey_beq_verKey]

lemma lookupAnn_bumpClaim_hash_of_not_drifted (np : NodePool) (nc : NodeClaim)
    (hd : nc.drifted = false) :
    lookupAnn (bumpClaim np nc).annotations NodePoolHashAnnotationKey = some np.hashVal := by
  simp [bumpClaim, bumpVersion, assign, hd, lookupAnn_cons]

lemma lookupAnn_bumpClaim_hash_of_drifted (np : NodePool) (nc : NodeClaim)
    (hd : nc.drifted = true) :
    lookupAnn (bumpClaim np nc).annotations NodePoolHashAnnotationKey =
      lookupAnn nc.annotations NodePoolHashAnnotationKey := by
  simp [bumpClaim, bumpVersion, assign, hd, lookupAnn_cons, verKey_beq_hashKey]

lemma mem_bumpClaim_ver (np : NodePool) (nc : NodeClaim) :
    (NodePoolHashVersionAnnotationKey, NodePoolHashVersion) ∈ (bumpClaim np nc).annotations := by
  cases hd : nc.drifted <;> simp [bumpClaim, bumpVersion, assign, hd]

lemma ncBeq_bump_false (np : NodePool) (nc : NodeClaim)
    (h : lookupAnn nc.annotations NodePoolHashVersionAnnotationKey ≠ some NodePoolHashVersion) :
    ncBeq nc (bumpClaim np nc) = false := by
  have hne : lookupAnn nc.annotations NodePoolHashVersionAnnotationKey ≠
      lookupAnn (bumpClaim np nc).annotations NodePoolHashVersionAnnotationKey := by
    rw [lookupAnn_bumpClaim_ver]; exact h
  have hfalse := annEq_false_of_lookup_ne nc.annotations (bumpClaim np nc).annotations
    NodePoolHashVersionAnnotationKey NodePoolHashVersion
    (List.mem_append.mpr (Or.inr (mem_bumpClaim_ver np nc))) hne
  simp [ncBeq, hfalse]

lemma updateOne_current (np : NodePool) (nc : NodeClaim) (patch : PatchResult)
    (h : lookupAnn nc.annotations NodePoolHashVersionAnnotationKey = some NodePoolHashVersion) :
    updateOne np nc patch = ⟨nc, false, false⟩ := by
  simp [updateOne, h]

lemma updateOne_ok (np : NodePool) (nc : NodeClaim)
    (h : lookupAnn nc.annotations NodePoolHashVersionAnnotationKey ≠ some NodePoolHashVersion) :
    updateOne np nc .ok = ⟨bumpClaim np nc, true, false⟩ := by
  have hb : (lookupAnn nc.annotations NodePoolHashVersionAnnotationKey ==
      some NodePoolHashVersion) = false := beq_eq_false_iff_ne.mpr h
  simp [updateOne, hb, ncBeq_bump_false np nc h]

lemma reconcileAfter_claimSteps (np : NodePool) (steps : List ClaimStep) (c : Cache)
    (now : Int) (pp : PatchResult) :
    (reconcileAfter np steps c now pp).claimSteps = steps := by
  unfold reconcileAfter
  split
  · rfl
  · split
    · rfl
    · cases pp <;> rfl

lemma reconcileSteps_stale (np : NodePool) (claims : List NodeClaim)
    (cp : NodeClaim → PatchResult)
    (h : lookupAnn np.annotations NodePoolHashVersionAnnotationKey ≠ some NodePoolHashVersion) :
    reconcileSteps np claims cp = updateNodeClaimHash np claims cp := by
  simp [reconcileSteps, beq_eq_false_iff_ne.mpr h]

lemma reconcileSteps_current (np : NodePool) (claims : List NodeClaim)
    (cp : NodeClaim → PatchResult)
    (h : lookupAnn np.annotations NodePoolHashVersionAnnotationKey = some NodePoolHashVersion) :
    reconcileSteps np claims cp = [] := by
  simp [reconcileSteps, h]

lemma lookupAnn_rehash_hash (np : NodePool) :
    lookupAnn (rehashPool np).annotations NodePoolHashAnnotationKey = some np.hashVal := by
  show lookupAnn ((NodePoolHashAnnotationKey, np.hashVal) ::
    (NodePoolHashVersionAnnotationKey, NodePoolHashVersion) :: np.annotations)
    NodePoolHashAnnotationKey = some np.hashVal
  rw [lookupAnn_cons]
  simp

lemma npBeq_rehash_true (np : NodePool)
    (h1 : lookupAnn np.annotations NodePoolHashAnnotationKey = some np.hashVal)
    (h2 : lookupAnn np.annotations NodePoolHashVersionAnnotationKey = some NodePoolHashVersion) :
    npBeq np (rehashPool np) = true := by
  have hann : annEq np.annotations
      (assign np.annotations
        [(NodePoolHashAnnotationKey, np.hashVal),
         (NodePoolHashVersionAnnotationKey, NodePoolHashVersion)]) = true := by
    apply (annEq_true_iff _ _).mpr
    intro kv _
    show lookupAnn np.annotations kv.1 =
      lookupAnn ((NodePoolHashAnnotationKey, np.hashVal) ::
        (NodePoolHashVersionAnnotationKey, NodePoolHashVersion) :: np.annotations) kv.1
    rw [lookupAnn_cons, lookupAnn_cons]
    split
    · next hb => rw [← eq_of_beq hb]; exact h1
    · split
      · next hb => rw [← eq_of_beq hb]; exact h2
      · rfl
  simp [npBeq, rehashPool, hann]

lemma npBeq_rehash_false (np : NodePool)
    (h1 : lookupAnn np.annotations NodePoolHashAnnotationKey ≠ some np.hashVal) :
    npBeq np (rehashPool np) = false := by
  have hmem : (NodePoolHashAnnotationKey, np.hashVal) ∈
      np.annotations ++ (rehashPool np).annotations := by
    apply List.mem_append.mpr
    right
    show (NodePoolHashAnnotationKey, np.hashVal) ∈
      (NodePoolHashAnnotationKey, np.hashVal) ::
        (NodePoolHashVersionAnnotationKey, NodePoolHashVersion) :: np.annotations
    exact List.mem_cons_self _ _
  have hne : lookupAnn np.annotations NodePoolHashAnnotationKey ≠
      lookupAnn (rehashPool np).annotations NodePoolHashAnnotationKey := by
    rw [lookupAnn_rehash_hash]; exact h1
  have hfalse := annEq_false_of_lookup_ne np.annotations (rehashPool np).annotations
    NodePoolHashAnnotationKey np.hashVal hmem hne
  simp [npBeq, hfalse]

lemma reconcileAfter_earlyerr (np : NodePool) (steps : List ClaimStep) (c : Cache)
    (now : Int) (pp : PatchResult) (hcomb : combineErrs steps = true) :
    reconcileAfter np steps c now pp = ⟨np, steps, c, [], false, some errClaimHash⟩ := by
  simp [reconcileAfter, hcomb]

lemma reconcileAfter_unchanged (np : NodePool) (steps : List ClaimStep) (c : Cache)
    (now : Int) (pp : PatchResult) (hcomb : combineErrs steps = false)
    (heq : npBeq np (rehashPool np) = true) :
    reconcileAfter np steps c now pp = ⟨np, steps, c, [], false, none⟩ := by
  simp [reconcileAfter, hcomb, heq]

lemma reconcileAfter_changed (np : NodePool) (steps : List ClaimStep) (c : Cache)
    (now : Int) (pp : PatchResult) (hcomb : combineErrs steps = false)
    (hne : npBeq np (rehashPool np) = false) :
    (reconcileAfter np steps c now pp).cache = (purge c now (cacheKeyHead np.name)).1 ∧
    (reconcileAfter np steps c now pp).purged = (purge c now (cacheKeyHead np.name)).2 ∧
    (reconcileAfter np steps c now pp).poolPatchAttempted = true := by
  cases pp <;> simp [reconcileAfter, hcomb, hne]

lemma str_data_inj (a b : String) (h : a.data = b.data) : a = b := by
  cases a
  cases b
  exact congrArg String.mk h

lemma data_append (s t : String) : (s ++ t).data = s.data ++ t.data := by
  cases s
  cases t
  rfl

lemma semiStr_data : semiStr.data = [';'] := by decide

lemma sep_prefix_disjoint (P a b it : List Char) (ha : ';' ∉ a) (hb : ';' ∉ b)
    (hne : a ≠ b) : ¬ ((P ++ a ++ [';']) <+: (P ++ b ++ ([';'] ++ it))) := by
  intro h
  rw [List.append_assoc P a [';'], List.append_assoc P b ([';'] ++ it)] at h
  have h2 : a ++ [';'] <+: b ++ ([';'] ++ it) := (List.prefix_append_right_inj P).mp h
  have hpa : a <+: b ++ ([';'] ++ it) := (List.prefix_append a [';']).trans h2
  have hpb : b <+: b ++ ([';'] ++ it) := List.prefix_append b ([';'] ++ it)
  rcases Nat.le_total a.length b.length with hl | hl
  · obtain ⟨u, hu⟩ := List.prefix_of_prefix_length_le hpa hpb hl
    cases u with
    | nil => exact hne (by simpa using hu)
    | cons c u' =>
      rw [← hu, List.append_assoc] at h2
      have h3 : ([';'] : List Char) <+: c :: (u' ++ ([';'] ++ it)) :=
        (List.prefix_append_right_inj a).mp h2
      have hcs := (List.cons_prefix_cons.mp h3).1
      apply hb
      rw [← hu]
      apply List.mem_append_right
      rw [hcs]
      exact List.mem_cons_self c u'
  · obtain ⟨u, hu⟩ := List.prefix_of_prefix_length_le hpb hpa hl
    cases u with
    | nil => exact hne (by simpa using hu.symm)
    | cons c u' =>
      rw [← hu, List.append_assoc] at h2
      have h3 : c :: (u' ++ [';']) <+: ';' :: it :=
        (List.prefix_append_right_inj b).mp h2
      have hcs := (List.cons_prefix_cons.mp h3).1
      apply ha
      rw [← hu]
      apply List.mem_append_right
      rw [← hcs]
      exact List.mem_cons_self c u'

lemma strStartsWith_pool_false (a b it : String) (ha : ';' ∉ a.data) (hb : ';' ∉ b.data)
    (hne : a ≠ b) : strStartsWith (cacheKeyHead a) (mkPoolKey b it) = false := by
  cases hP : strStartsWith (cacheKeyHead a) (mkPoolKey b it)
  · rfl
  · exfalso
    have hpre : (cacheKeyHead a).data <+: (mkPoolKey b it).data := by
      have := hP
      simp only [strStartsWith] at this
      exact List.isPrefixOf_iff_prefix.mp this
    rw [show (cacheKeyHead a).data =
          allocCacheTag.data ++ a.data ++ [';'] by
        simp [cacheKeyHead, data_append, semiStr_data],
      show (mkPoolKey b it).data =
          allocCacheTag.data ++ b.data ++ ([';'] ++ it.data) by
        simp [mkPoolKey, cacheKeyHead, data_append, semiStr_data]] at hpre
    exact sep_prefix_disjoint allocCacheTag.data a.data b.data it.data ha hb
      (fun hdeq => hne (str_data_inj a b hdeq)) hpre

lemma findItems_filterPurge (items : List (String × CacheEntry)) (now : Int) (pre k : String)
    (hk : strStartsWith pre k = true) :
    ∀ e, findItems (items.filter (purgeKeep now pre)) k = some e →
      isExpired now e = true := by
  induction items with
  | nil => intro e h; simp [findItems] at h
  | cons kv rest ih =>
    intro e h
    by_cases hp : purgeKeep now pre kv = true
    · rw [List.filter_cons_of_pos hp] at h
      by_cases hkk : (kv.1 == k) = true
      · have hkeq := eq_of_beq hkk
        simp [findItems, hkk] at h
        simp only [purgeKeep, purgeGone] at hp
        rw [hkeq, hk] at hp
        simp at hp
        rw [← h]
        exact hp
      · simp [findItems, hkk] at h
        exact ih e h
    · rw [List.filter_cons_of_neg hp] at h
      exact ih e h

lemma get_purge_none (c : Cache) (now : Int) (pre k : String)
    (hk : strStartsWith pre k = true) :
    Cache.get (purge c now pre).1 now k = none := by
  unfold Cache.get
  cases hf : findItems (purge c now pre).1.items k with
  | none => simp [hf]
  | some e =>
    have hexp := findItems_filterPurge c.items now pre k hk e (by simpa [purge] using hf)
    simp [hf, hexp]

lemma mem_purge_iff_of_no_pre (c : Cache) (now : Int) (pre : String)
    (kv : String × CacheEntry) (hnp : strStartsWith pre kv.1 = false) :
    kv ∈ (purge c now pre).1.items ↔ kv ∈ c.items := by
  simp [purge, purgeKeep, purgeGone, List.mem_filter, hnp]

lemma findItems_set_self (c : Cache) (now : Int) (k : String) (v : Nat) (ttl : Int) :
    findItems (Cache.set c now k v ttl).items k = some ⟨v, now + ttl⟩ := by
  simp [Cache.set, findItems]

lemma cacheGet_expired (c : Cache) (now : Int) (k : String) (e : CacheEntry)
    (hf : findItems c.items k = some e) (h1 : 0 < e.expiration) (h2 : e.expiration < now) :
    Cache.get c now k = none := by
  simp [Cache.get, hf, isExpired, h1, h2]

/-! ## Concrete sample data for witnesses and counterexamples -/

def poolA : String := "pool-a"

def poolB : String := "pool-b"

def itypeM : String := "m5.large"

def hashOne : String := "hash-one"

def hashTwo : String := "hash-two"

def claimOne : String := "claim-1"

def nodeName1 : String := "node-1"

def keyA : String := mkPoolKey poolA itypeM

def keyB : String := mkPoolKey poolB itypeM

def cache0 : Cache := ⟨[]⟩

def cacheAB : Cache := ⟨[(keyA, ⟨1, 0⟩), (keyB, ⟨2, 0⟩)]⟩

def cacheExp : Cache := ⟨[(keyA, ⟨1, 5⟩)]⟩

def cpOk : NodeClaim → PatchResult := fun _ => PatchResult.ok

/-- A NodePool with no annotations yet: both hash and hash-version stale. -/
def npStale : NodePool := ⟨poolA, hashOne, []⟩

/-- A converged NodePool: annotations match its computed hash and version. -/
def npConv : NodePool :=
  ⟨poolA, hashOne,
   [(NodePoolHashAnnotationKey, hashOne), (NodePoolHashVersionAnnotationKey, NodePoolHashVersion)]⟩

/-- A pool at the current hash-version whose recorded hash is out of date
(its drift-relevant fields changed). -/
def npHashStale : NodePool :=
  ⟨poolA, hashTwo,
   [(NodePoolHashAnnotationKey, hashOne), (NodePoolHashVersionAnnotationKey, NodePoolHashVersion)]⟩

def ncStale : NodeClaim := ⟨claimOne, false, []⟩

def ncCurrent : NodeClaim := ⟨claimOne, false, [(NodePoolHashVersionAnnotationKey, NodePoolHashVersion)]⟩

def regNotLaunched : RegClaim := ⟨claimOne, [], [], [], [], none, none, none, 0⟩

def regLaunched : RegClaim := ⟨claimOne, [], [], [], [], some (true, emptyStr), none, none, 0⟩

def regRegistered : RegClaim :=
  ⟨claimOne, [], [], [], [], some (true, emptyStr), some (true, emptyStr), none, 0⟩

def nodeOne : Node := ⟨nodeName1, [], [], [], [], 5, none⟩

def gcNotReady : GCState := ⟨true, [TerminationFinalizer], .notReady, true, 20⟩

def gcReady : GCState := ⟨true, [TerminationFinalizer], .ready, true, 20⟩

/-! ## Claim theorems -/

/-- C1: for every NodeClaim of a NodePool whose stored hash-version differs
from the controller's current version, the pool reconcile processes the claim,
and (when its patch succeeds) the claim's hash-version annotation ends at the
current version unconditionally, while its hash annotation is set to the
pool's newly computed hash exactly when the claim's Drifted condition was not
already set, and is left unchanged when it was. -/
theorem hash_bump_sets_version_and_conditional_hash (np : NodePool) (claims : List NodeClaim)
    (c : Cache) (now : Int) (cp : NodeClaim → PatchResult) (pp : PatchResult) (nc : NodeClaim)
    (hpool : lookupAnn np.annotations NodePoolHashVersionAnnotationKey ≠ some NodePoolHashVersion)
    (hmem : nc ∈ claims)
    (hclaim : lookupAnn nc.annotations NodePoolHashVersionAnnotationKey ≠ some NodePoolHashVersion)
    (hok : cp nc = PatchResult.ok) :
    updateOne np nc (cp nc) ∈ (Reconcile np claims c now cp pp).claimSteps ∧
    lookupAnn (updateOne np nc (cp nc)).claim.annotations NodePoolHashVersionAnnotationKey =
      some NodePoolHashVersion ∧
    (nc.drifted = false →
      lookupAnn (updateOne np nc (cp nc)).claim.annotations NodePoolHashAnnotationKey =
        some np.hashVal) ∧
    (nc.drifted = true →
      lookupAnn (updateOne np nc (cp nc)).claim.annotations NodePoolHashAnnotationKey =
        lookupAnn nc.annotations NodePoolHashAnnotationKey) := by
  have hstep : updateOne np nc (cp nc) = ⟨bumpClaim np nc, true, false⟩ := by
    rw [hok]
    exact updateOne_ok np nc hclaim
  refine ⟨?_, ?_, ?_, ?_⟩
  · show updateOne np nc (cp nc) ∈
      (reconcileAfter np (reconcileSteps np claims cp) c now pp).claimSteps
    rw [reconcileAfter_claimSteps, reconcileSteps_stale np claims cp hpool]
    exact List.mem_map_of_mem _ hmem
  · rw [hstep]
    exact lookupAnn_bumpClaim_ver np nc
  · intro hd
    rw [hstep]
    exact lookupAnn_bumpClaim_hash_of_not_drifted np nc hd
  · intro hd
    rw [hstep]
    exact lookupAnn_bumpClaim_hash_of_drifted np nc hd

/-- C1 witness: a stale pool with one stale, non-drifted claim whose patch
succeeds: the claim's step appears in the reconcile, its version annotation is
current, and its hash annotation equals the pool's computed hash. -/
theorem hash_bump_sets_version_and_conditional_hash_witness :
    updateOne npStale ncStale (cpOk ncStale) ∈
      (Reconcile npStale [ncStale] cache0 0 cpOk .ok).claimSteps ∧
    lookupAnn (updateOne npStale ncStale (cpOk ncStale)).claim.annotations
      NodePoolHashVersionAnnotationKey = some NodePoolHashVersion ∧
    lookupAnn (updateOne npStale ncStale (cpOk ncStale)).claim.annotations
      NodePoolHashAnnotationKey = some npStale.hashVal :=
  have h := hash_bump_sets_version_and_conditional_hash npStale [ncStale] cache0 0 cpOk .ok
    ncStale (by decide) (by decide) (by decide) (by decide)
  ⟨h.1, h.2.1, h.2.2.1 (by decide)⟩

/-- C2: a NodeClaim whose node exists but is not Ready and whose backing
instance is gone is deleted by a garbage-collection reconcile once at least
the consistency window has elapsed: its finalizers are removed and the claim
object no longer exists. -/
theorem gc_deletes_notready_gone_after_window (s : GCState) (window : Nat)
    (hnode : s.node = GCNodeView.notReady) (hgone : s.instanceGone = true)
    (helapsed : window ≤ s.elapsed) :
    (gcReconcile s window).claimPresent = false ∧ (gcReconcile s window).finalizers = [] := by
  have hd : gcShouldDelete s window = true := by
    simp [gcShouldDelete, hnode, hgone, helapsed]
  simp [gcReconcile, hd]

/-- C2 witness: consistency window of 20 seconds, elapsed 20 seconds, node
NotReady, instance gone: the claim is deleted. -/
theorem gc_deletes_notready_gone_after_window_witness :
    (gcReconcile gcNotReady 20).claimPresent = false ∧
    (gcReconcile gcNotReady 20).finalizers = [] :=
  gc_deletes_notready_gone_after_window gcNotReady 20 (by decide) (by decide) (by decide)

/-- C3: a NodeClaim whose node exists and is Ready is never deleted by a
garbage-collection reconcile, whatever the instance state and however much
time has elapsed: the reconcile changes nothing, so the claim still exists. -/
theorem gc_keeps_ready_node (s : GCState) (window : Nat)
    (hnode : s.node = GCNodeView.ready) :
    gcReconcile s window = s ∧
    (s.claimPresent = true → (gcReconcile s window).claimPresent = true) := by
  have heq : gcReconcile s window = s := by
    simp [gcReconcile, gcShouldDelete, hnode]
  exact ⟨heq, fun hp => by rw [heq]; exact hp⟩

/-- C3 witness: a Ready node with its instance gone and the full window
elapsed: the garbage collector leaves the claim in place. -/
theorem gc_keeps_ready_node_witness :
    gcReconcile gcReady 20 = gcReady ∧
    (gcReconcile gcReady 20).claimPresent = true :=
  have h := gc_keeps_ready_node gcReady 20 (by decide)
  ⟨h.1, h.2 (by decide)⟩

/-- C4: a registration reconcile of a NodeClaim whose Launched condition is
not true never makes Registered true: it returns a nil error, Registered can
only remain true if it already was, and when not already Registered the
condition is set to False with reason NotLaunched. -/
theorem registration_requires_launched (nc : RegClaim) (lookup : NodeLookup) (c : Cache)
    (now : Int) (patch : PatchResult) (h : condIsTrue nc.launched = false) :
    (regReconcile nc lookup c now patch).error = none ∧
    (condIsTrue (regReconcile nc lookup c now patch).claim.registered = true →
      condIsTrue nc.registered = true) ∧
    (condIsTrue nc.registered = false →
      (regReconcile nc lookup c now patch).claim.registered = some (false, reasonNotLaunched)) := by
  cases hr : condIsTrue nc.registered
  · have hout : regReconcile nc lookup c now patch =
        ⟨setRegCond nc false reasonNotLaunched, none, c, false, none⟩ := by
      simp [regReconcile, hr, h]
    rw [hout]
    refine ⟨rfl, ?_, fun _ => rfl⟩
    intro habs
    simp [setRegCond, condIsTrue] at habs
  · have hout : regReconcile nc lookup c now patch = ⟨nc, none, c, false, none⟩ := by
      simp [regReconcile, hr]
    rw [hout]
    exact ⟨rfl, fun _ => rfl, fun hcontra => Bool.noConfusion hcontra⟩

/-- C4 witness: a claim with no Launched condition: the reconcile succeeds and
sets Registered to False with reason NotLaunched. -/
theorem registration_requires_launched_witness :
    (regReconcile regNotLaunched .otherErr cache0 0 .ok).error = none ∧
    (regReconcile regNotLaunched .otherErr cache0 0 .ok).claim.registered =
      some (false, reasonNotLaunched) :=
  have h := registration_requires_launched regNotLaunched .otherErr cache0 0 .ok (by decide)
  ⟨h.1, h.2.2 (by decide)⟩

/-- C5 counterexample: the claim's clause "a failed patch implies nothing was
purged" is false — on a changed pool the purge runs before the patch, so with
a failing pool patch the reconcile still deletes the pool's cache entries:
here the patch fails (an error is returned) yet keyA was purged and the cache
changed. -/
theorem purge_survives_failed_patch_cex :
    (Reconcile npStale [] cacheAB 0 cpOk .err).error = some errPatchPool ∧
    (Reconcile npStale [] cacheAB 0 cpOk .err).purged = [keyA] ∧
    (Reconcile npStale [] cacheAB 0 cpOk .err).cache ≠ cacheAB := by decide

/-- C5 (amended): entries prefixed by the pool's name are purged if and only
if the reconcile computes a change to the NodePool (equivalently, iff a pool
patch is attempted); no purge occurs when the pool is unchanged; but the
purge precedes the patch, so entries are purged together with the patch
attempt, even when the patch subsequently fails. -/
theorem purge_iff_pool_changed (np : NodePool) (claims : List NodeClaim) (c : Cache)
    (now : Int) (cp : NodeClaim → PatchResult) (pp : PatchResult) :
    ((Reconcile np claims c now cp pp).poolPatchAttempted = false →
      (Reconcile np claims c now cp pp).cache = c ∧
      (Reconcile np claims c now cp pp).purged = []) ∧
    ((Reconcile np claims c now cp pp).poolPatchAttempted = true →
      (Reconcile np claims c now cp pp).cache = (purge c now (cacheKeyHead np.name)).1 ∧
      (Reconcile np claims c now cp pp).purged = (purge c now (cacheKeyHead np.name)).2) := by
  unfold Reconcile
  by_cases hcomb : combineErrs (reconcileSteps np claims cp) = true
  · rw [reconcileAfter_earlyerr np _ c now pp hcomb]
    exact ⟨fun _ => ⟨rfl, rfl⟩, fun habs => Bool.noConfusion habs⟩
  · have hcomb' := eq_false_of_ne_true hcomb
    by_cases heq : npBeq np (rehashPool np) = true
    · rw [reconcileAfter_unchanged np _ c now pp hcomb' heq]
      exact ⟨fun _ => ⟨rfl, rfl⟩, fun habs => Bool.noConfusion habs⟩
    · have heq' := eq_false_of_ne_true heq
      obtain ⟨hc, hp, ha⟩ :=
        reconcileAfter_changed np (reconcileSteps np claims cp) c now pp hcomb' heq'
      exact ⟨fun habs => Bool.noConfusion (ha.symm.trans habs), fun _ => ⟨hc, hp⟩⟩

/-- C5 amended witness: a changed pool attempts the patch and the cache and
purge list are exactly those produced by the purge loop. -/
theorem purge_iff_pool_changed_witness :
    (Reconcile npStale [] cacheAB 0 cpOk .ok).cache =
      (purge cacheAB 0 (cacheKeyHead npStale.name)).1 ∧
    (Reconcile npStale [] cacheAB 0 cpOk .ok).purged =
      (purge cacheAB 0 (cacheKeyHead npStale.name)).2 :=
  (purge_iff_pool_changed npStale [] cacheAB 0 cpOk .ok).2 (by decide)

/-- C6: when a NodePool's drift-relevant fields changed (its recorded hash no
longer matches the computed one) and it is reconciled, every cache key with
that pool's prefix reads as absent afterwards, and every entry whose key
belongs to a different pool (pool names free of the ';' separator) is left
exactly in place. -/
theorem pool_change_purges_only_own_entries (np : NodePool) (claims : List NodeClaim)
    (c : Cache) (now : Int) (cp : NodeClaim → PatchResult) (pp : PatchResult)
    (hver : lookupAnn np.annotations NodePoolHashVersionAnnotationKey = some NodePoolHashVersion)
    (hchanged : lookupAnn np.annotations NodePoolHashAnnotationKey ≠ some np.hashVal) :
    (∀ k, strStartsWith (cacheKeyHead np.name) k = true →
      Cache.get (Reconcile np claims c now cp pp).cache now k = none) ∧
    (∀ kv : String × CacheEntry, ∀ other itype : String,
      ';' ∉ other.data → ';' ∉ np.name.data → other ≠ np.name → kv.1 = mkPoolKey other itype →
      (kv ∈ (Reconcile np claims c now cp pp).cache.items ↔ kv ∈ c.items)) := by
  have hsteps : reconcileSteps np claims cp = [] := reconcileSteps_current np claims cp hver
  have hcomb : combineErrs (reconcileSteps np claims cp) = false := by rw [hsteps]; rfl
  have hne := npBeq_rehash_false np hchanged
  obtain ⟨hc, _, _⟩ := reconcileAfter_changed np (reconcileSteps np claims cp) c now pp hcomb hne
  constructor
  · intro k hk
    show Cache.get (reconcileAfter np (reconcileSteps np claims cp) c now pp).cache now k = none
    rw [hc]
    exact get_purge_none c now _ k hk
  · intro kv other itype hosemi hnpsemi hone hkey
    show kv ∈ (reconcileAfter np (reconcileSteps np claims cp) c now pp).cache.items ↔
      kv ∈ c.items
    rw [hc]
    apply mem_purge_iff_of_no_pre
    rw [hkey]
    exact strStartsWith_pool_false np.name other itype hnpsemi hosemi (Ne.symm hone)

/-- C6 witness: pool-a's hash changed; after the reconcile pool-a's cache key
reads as absent while pool-b's entry is untouched. -/
theorem pool_change_purges_only_own_entries_witness :
    Cache.get (Reconcile npHashStale [] cacheAB 0 cpOk .ok).cache 0 keyA = none ∧
    ((keyB, (⟨2, 0⟩ : CacheEntry)) ∈ (Reconcile npHashStale [] cacheAB 0 cpOk .ok).cache.items ↔
      (keyB, (⟨2, 0⟩ : CacheEntry)) ∈ cacheAB.items) :=
  have h := pool_change_purges_only_own_entries npHashStale [] cacheAB 0 cpOk .ok
    (by decide) (by decide)
  ⟨h.1 keyA (by decide),
   h.2 (keyB, ⟨2, 0⟩) poolB itypeM (by decide) (by decide) (by decide) (by decide)⟩

/-- C7: for a launched, not yet registered NodeClaim, a node lookup that finds
nothing sets Registered to False with reason NodeNotFound and returns no
error; a lookup matching several nodes sets False with reason
MultipleNodesFound and returns no error; any other lookup failure is returned
as a processing error; in none of the three cases does Registered become
true. -/
theorem registration_lookup_failures (nc : RegClaim) (c : Cache) (now : Int)
    (patch : PatchResult) (hL : condIsTrue nc.launched = true)
    (hR : condIsTrue nc.registered = false) :
    ((regReconcile nc .notFoundErr c now patch).claim.registered =
        some (false, reasonNodeNotFound) ∧
      (regReconcile nc .notFoundErr c now patch).error = none ∧
      condIsTrue (regReconcile nc .notFoundErr c now patch).claim.registered = false) ∧
    ((regReconcile nc .duplicateErr c now patch).claim.registered =
        some (false, reasonMultipleNodesFound) ∧
      (regReconcile nc .duplicateErr c now patch).error = none ∧
      condIsTrue (regReconcile nc .duplicateErr c now patch).claim.registered = false) ∧
    ((regReconcile nc .otherErr c now patch).error = some errGettingNode ∧
      (regReconcile nc .otherErr c now patch).claim.registered = nc.registered ∧
      condIsTrue (regReconcile nc .otherErr c now patch).claim.registered = false) := by
  have h1 : regReconcile nc .notFoundErr c now patch =
      ⟨setRegCond nc false reasonNodeNotFound, none, c, false, none⟩ := by
    simp [regReconcile, hR, hL]
  have h2 : regReconcile nc .duplicateErr c now patch =
      ⟨setRegCond nc false reasonMultipleNodesFound, none, c, false, none⟩ := by
    simp [regReconcile, hR, hL]
  have h3 : regReconcile nc .otherErr c now patch = ⟨nc, none, c, false, some errGettingNode⟩ := by
    simp [regReconcile, hR, hL]
  refine ⟨⟨?_, ?_, ?_⟩, ⟨?_, ?_, ?_⟩, ⟨?_, ?_, ?_⟩⟩
  · rw [h1]; rfl
  · rw [h1]
  · rw [h1]; simp [setRegCond, condIsTrue]
  · rw [h2]; rfl
  · rw [h2]
  · rw [h2]; simp [setRegCond, condIsTrue]
  · rw [h3]
  · rw [h3]
  · rw [h3]; exact hR

/-- C7 witness: a launched, unregistered claim under each of the three failing
lookups. -/
theorem registration_lookup_failures_witness :
    (regReconcile regLaunched .notFoundErr cache0 0 .ok).claim.registered =
      some (false, reasonNodeNotFound) ∧
    (regReconcile regLaunched .duplicateErr cache0 0 .ok).claim.registered =
      some (false, reasonMultipleNodesFound) ∧
    (regReconcile regLaunched .otherErr cache0 0 .ok).error = some errGettingNode :=
  have h := registration_lookup_failures regLaunched cache0 0 .ok (by decide) (by decide)
  ⟨h.1.1, h.2.1.1, h.2.2.1⟩

/-- C8: hash propagation across a pool's NodeClaims processes every claim
independently (the result is an elementwise map, so one claim's patch failure
never stops the others); per-item errors swallow not-found and are recorded
exactly for other patch failures; and the combined error is nil exactly when
no per-item error was recorded. -/
theorem hash_propagation_aggregates_errors (np : NodePool) (claims : List NodeClaim)
    (cp : NodeClaim → PatchResult) :
    updateNodeClaimHash np claims cp = claims.map (fun nc => updateOne np nc (cp nc)) ∧
    (combineErrs (updateNodeClaimHash np claims cp) = false ↔
      ∀ s ∈ updateNodeClaimHash np claims cp, s.errRecorded = false) ∧
    (∀ nc : NodeClaim, ∀ patch : PatchResult,
      (updateOne np nc patch).errRecorded = true ↔
        ((updateOne np nc patch).patchAttempted = true ∧ patch = PatchResult.err)) := by
  refine ⟨rfl, ?_, ?_⟩
  · simp [combineErrs, List.any_eq_false]
  · intro nc patch
    unfold updateOne
    split
    · simp
    · split
      · simp
      · cases patch <;> simp

/-- C8 witness: one stale claim whose patch fails with a non-not-found error:
the fan-out result is still the full map and the combined-error equivalence
holds at this input. -/
theorem hash_propagation_aggregates_errors_witness :
    updateNodeClaimHash npStale [ncStale] (fun _ => PatchResult.err) =
      [ncStale].map (fun nc => updateOne npStale nc PatchResult.err) ∧
    (combineErrs (updateNodeClaimHash npStale [ncStale] (fun _ => PatchResult.err)) = false ↔
      ∀ s ∈ updateNodeClaimHash npStale [ncStale] (fun _ => PatchResult.err),
        s.errRecorded = false) :=
  have h := hash_propagation_aggregates_errors npStale [ncStale] (fun _ => PatchResult.err)
  ⟨h.1, h.2.1⟩

/-- C9: reconciling an already-converged object performs no mutating call:
a pool whose hash and hash-version annotations already match computes no
patch, no purge and no claim steps; a claim already at the current
hash-version is left untouched with no patch; a claim already Registered
returns immediately with no writes at all. -/
theorem converged_reconcile_is_noop :
    (∀ np : NodePool, ∀ claims : List NodeClaim, ∀ c : Cache, ∀ now : Int,
      ∀ cp : NodeClaim → PatchResult, ∀ pp : PatchResult,
      lookupAnn np.annotations NodePoolHashAnnotationKey = some np.hashVal →
      lookupAnn np.annotations NodePoolHashVersionAnnotationKey = some NodePoolHashVersion →
      Reconcile np claims c now cp pp = ⟨np, [], c, [], false, none⟩) ∧
    (∀ np : NodePool, ∀ nc : NodeClaim, ∀ patch : PatchResult,
      lookupAnn nc.annotations NodePoolHashVersionAnnotationKey = some NodePoolHashVersion →
      updateOne np nc patch = ⟨nc, false, false⟩) ∧
    (∀ nc : RegClaim, ∀ lookup : NodeLookup, ∀ c : Cache, ∀ now : Int, ∀ patch : PatchResult,
      condIsTrue nc.registered = true →
      regReconcile nc lookup c now patch = ⟨nc, none, c, false, none⟩) := by
  refine ⟨?_, ?_, ?_⟩
  · intro np claims c now cp pp h1 h2
    unfold Reconcile
    rw [reconcileSteps_current np claims cp h2]
    exact reconcileAfter_unchanged np [] c now pp rfl (npBeq_rehash_true np h1 h2)
  · intro np nc patch h
    exact updateOne_current np nc patch h
  · intro nc lookup c now patch h
    simp [regReconcile, h]

/-- C9 witness: a converged pool, a current-version claim and an
already-registered claim, each reconciled without any write. -/
theorem converged_reconcile_is_noop_witness :
    Reconcile npConv [] cache0 0 cpOk .ok = ⟨npConv, [], cache0, [], false, none⟩ ∧
    updateOne npConv ncCurrent .ok = ⟨ncCurrent, false, false⟩ ∧
    regReconcile regRegistered .otherErr cache0 0 .ok =
      ⟨regRegistered, none, cache0, false, none⟩ :=
  have h := converged_reconcile_is_noop
  ⟨h.1 npConv [] cache0 0 cpOk .ok (by decide) (by decide),
   h.2.1 npConv ncCurrent .ok (by decide),
   h.2.2 regRegistered .otherErr cache0 0 .ok (by decide)⟩

/-- C10: every allocatable-cache entry written by registration's node sync
carries expiration time write-time plus DefaultSharedCacheTTL, that default
is 24 hours, and for every key an entry past its expiration is reported
absent by a read with no eviction having run. -/
theorem registration_cache_entries_ttl_bounded :
    (∀ nc : RegClaim, ∀ node : Node, ∀ c : Cache, ∀ now : Int, ∀ patch : PatchResult,
      findItems (syncNode nc node c now patch).cache.items (mkCacheKey nc) =
        some ⟨node.allocatable, now + DefaultSharedCacheTTL⟩) ∧
    DefaultSharedCacheTTL = 24 * 60 * 60 * 1000000000 ∧
    (∀ c : Cache, ∀ now : Int, ∀ k : String, ∀ e : CacheEntry,
      findItems c.items k = some e → 0 < e.expiration → e.expiration < now →
      Cache.get c now k = none) := by
  refine ⟨?_, rfl, ?_⟩
  · intro nc node c now patch
    have hcache : (syncNode nc node c now patch).cache = syncCache nc node c now := by
      unfold syncNode
      split
      · rfl
      · cases patch <;> rfl
    rw [hcache]
    exact findItems_set_self c now (mkCacheKey nc) node.allocatable DefaultSharedCacheTTL
  · intro c now k e hf h1 h2
    exact cacheGet_expired c now k e hf h1 h2

/-- C10 witness: a concrete sync writes its entry with the default TTL, and a
concrete entry whose expiration has passed reads as absent without eviction. -/
theorem registration_cache_entries_ttl_bounded_witness :
    findItems (syncNode regLaunched nodeOne cache0 0 PatchResult.ok).cache.items
      (mkCacheKey regLaunched) = some ⟨nodeOne.allocatable, 0 + DefaultSharedCacheTTL⟩ ∧
    Cache.get cacheExp 9 keyA = none :=
  ⟨registration_cache_entries_ttl_bounded.1 regLaunched nodeOne cache0 0 .ok,
   registration_cache_entries_ttl_bounded.2.2 cacheExp 9 keyA ⟨1, 5⟩
     (by decide) (by decide) (by decide)⟩
